import Mathlib

/-!
# llpkgstore: the llcppg generator (Generate / Check) and the `generate` command

A shallow embedding of `internal/actions/generator/llcppg/llcppg.go` and of
`cmd/llpkgstore/internal/generate.go`.

* Go strings are Lean strings; substring search works on their character lists.
* Go errors are values of `Err`; `errors.Join` is the constructor `Err.join`,
  `fmt.Errorf` / `errors.New` keep the format string and the arguments apart
  (`Err.errorf`), and `Err.Error` renders the text.
* A Go `map[string][]byte` is an association list whose order is the order in
  which `range` visits the map; every statement is quantified over the list, so
  it holds for every iteration order.
* The file system is an association list from cleaned absolute paths to nodes;
  external processes and standard-library calls whose result depends on the
  machine are fields of `Env`.
-/

namespace Llcppg

/-! ## Strings -/

/-- Substring test on character lists: some suffix of the first list starts
with the second list. -/
def containsChars : List Char → List Char → Bool
  | [], sub => sub.isPrefixOf []
  | c :: s, sub => sub.isPrefixOf (c :: s) || containsChars s sub

/-- Go `strings.Contains(s, substr)`. -/
def stringsContains (s substr : String) : Bool :=
  containsChars s.data substr.data

/-- Go `%s` substitution of `fmt.Sprintf`: every `%s` of the format is replaced
by the next argument (a `%s` without an argument left is kept as it is). -/
def sprintfChars : List Char → List String → List Char
  | [], _ => []
  | '%' :: 's' :: rest, a :: args => a.data ++ sprintfChars rest args
  | c :: rest, args => c :: sprintfChars rest args

/-- Go `fmt.Sprintf` restricted to the verb `%s`. -/
def sprintf (format : String) (args : List String) : String :=
  String.mk (sprintfChars format.data args)

/-! ## Errors -/

/-- Go error values that occur in the generator. -/
inductive Err where
  /-- The sentinel `ErrLlcppgGenerate`. -/
  | ErrLlcppgGenerate
  /-- The sentinel `ErrLlcppgCheck`. -/
  | ErrLlcppgCheck
  /-- An error built by `errors.New(format)` or `fmt.Errorf(format, args...)`. -/
  | errorf (format : String) (args : List String)
  /-- An `*exec.ExitError`; `success` is `ProcessState.Success()`. -/
  | exitError (success : Bool) (text : String)
  /-- Any other error of the operating system or the standard library. -/
  | sys (text : String)
  /-- The value of `errors.Join(a, b)` for two non-nil errors. -/
  | join (a b : Err)
  deriving DecidableEq

/-- Go `err.Error()`. -/
def Err.Error : Err → String
  | .ErrLlcppgGenerate => "llcppg: cannot generate: "
  | .ErrLlcppgCheck => "llcppg: check fail: "
  | .errorf format args => sprintf format args
  | .exitError _ text => text
  | .sys text => text
  | .join a b => a.Error ++ "\n" ++ b.Error

/-- Go `errors.Is(e, target)`: `e` is `target` or joins an error that is. -/
def Err.wraps : Err → Err → Bool
  | .join a b, target =>
      decide (Err.join a b = target) || a.wraps target || b.wraps target
  | e, target => decide (e = target)

/-! ## Hashable files -/

/-- The key set of the map `canHashFile`. -/
def canHashFile : List String := ["llcppg.pub", "go.mod", "go.sum"]

/-- The function `canHash` of llcppg.go. -/
def canHash (fileName : String) : Bool :=
  if stringsContains fileName ".go" then true
  else decide (fileName ∈ canHashFile)

/-! ## Hash maps and the environment -/

/-- The result of `hashutils.Dir`: relative path ↦ digest, in iteration order. -/
abbrev HashMap := List (String × List Nat)

/-- The keys of a hash map. -/
def keys (m : HashMap) : List String := m.map Prod.fst

/-- A node of the file system. -/
inductive Node where
  | file (data : List Nat)
  | dir
  deriving DecidableEq

/-- The file system: cleaned absolute path ↦ node. -/
abbrev FS := List (String × Node)

/-- An `*exec.Cmd`. -/
structure Cmd where
  name : String
  args : List String
  dir : String
  env : List String
  deriving DecidableEq

/-- What the program takes from the machine and from packages that are not part
of the two embedded files. -/
structure Env where
  /-- Go `filepath.Abs`. -/
  abs : String → Except Err String
  /-- The call `hashutils.Dir(dir, canHash)`. -/
  hashDir : String → Except Err HashMap
  /-- The combined output of `git diff --no-index a b`. -/
  gitDiff : String → String → String
  /-- Go `filepath.Glob` (the caller drops its error). -/
  glob : FS → String → List String
  /-- The call `pc.SetPath(cmd, pcPath)`. -/
  pcSetPath : Cmd → String → Cmd
  /-- Running an external command: the error of `cmd.Run()` and the file
  system the process leaves behind. -/
  run : Cmd → FS → Option Err × FS

/-- The elements of a path: its maximal runs of characters other than '/', in
order; `cur` is the element being read, last character first. -/
def splitElems : List Char → List Char → List (List Char)
  | [], cur => if cur = [] then [] else [cur.reverse]
  | c :: rest, cur =>
    if c = '/' then
      if cur = [] then splitElems rest [] else cur.reverse :: splitElems rest []
    else splitElems rest (c :: cur)

/-- The element loop of Go `filepath.Clean`; `kept` holds the elements written
so far, last one first. An element "." is dropped; an element ".." removes the
last kept element when that is not itself "..", is dropped at the top of a
rooted path, and is kept otherwise. -/
def cleanElems (rooted : Bool) : List (List Char) → List (List Char) → List (List Char)
  | [], kept => kept.reverse
  | e :: rest, kept =>
    if e = ['.'] then cleanElems rooted rest kept
    else if e = ['.', '.'] then
      match kept with
      | top :: below =>
        if top = ['.', '.'] then cleanElems rooted rest (e :: kept)
        else cleanElems rooted rest below
      | [] => if rooted then cleanElems rooted rest [] else cleanElems rooted rest [e]
    else cleanElems rooted rest (e :: kept)

/-- Go `filepath.Clean(path)` with the separator '/': repeated separators, "."
elements and resolvable ".." elements are removed; the result ends in a
separator only when it is the root, and the empty result is ".". -/
def filepathClean (path : String) : String :=
  if path = "" then "."
  else
    let rooted := path.data.head? == some '/'
    let elems := cleanElems rooted (splitElems path.data []) []
    if rooted then String.mk ('/' :: List.intercalate ['/'] elems)
    else if elems = [] then "."
    else String.mk (List.intercalate ['/'] elems)

/-- Go `filepath.Join(dir, name)`: empty elements before the first non-empty
one are ignored, the rest is joined with '/' and cleaned; the join of two empty
elements is the empty string. -/
def filepathJoin (dir name : String) : String :=
  if dir ≠ "" then filepathClean (dir ++ "/" ++ name)
  else if name ≠ "" then filepathClean name
  else ""

/-- The generator: `dir` is the directory of llcppg.cfg. -/
structure llcppgGenerator where
  dir : String
  pcDir : String
  packageName : String
  deriving DecidableEq

/-- The function `New`. -/
def New (dir packageName pcDir : String) : llcppgGenerator :=
  { dir := dir, packageName := packageName, pcDir := pcDir }

/-! ## Check -/

/-- The function `diffTwoFiles`. -/
def diffTwoFiles (env : Env) (a b : String) : String := env.gitDiff a b

/-- The first loop of `Check` ("2. check hash"), over the entries of
`userGenerated` that are still to be visited. -/
def checkHash (env : Env) (l : llcppgGenerator) (baseDir : String)
    (generated : HashMap) : HashMap → Option Err
  | [] => none
  | (name, hash) :: rest =>
    match generated.lookup name with
    | none =>
      if canHash name then
        some (.join .ErrLlcppgCheck (.errorf "unexpected file: %s" [name]))
      else checkHash env l baseDir generated rest
    | some generatedHash =>
      if hash ≠ generatedHash then
        some (.join .ErrLlcppgCheck (.errorf "file not equal: %s %s"
          [name, diffTwoFiles env (filepathJoin l.dir name) (filepathJoin baseDir name)]))
      else checkHash env l baseDir generated rest

/-- The second loop of `Check` ("3. check missing file"), over the entries of
`generated` that are still to be visited. -/
def checkMissing (userGenerated : HashMap) : HashMap → Option Err
  | [] => none
  | (name, _) :: rest =>
    match userGenerated.lookup name with
    | none => some (.join .ErrLlcppgCheck (.errorf "missing file: %s" [name]))
    | some _ => checkMissing userGenerated rest

/-- The two sweeps of `Check` ("2. check hash", then "3. check missing file")
on the two hash maps. -/
def checkMaps (env : Env) (l : llcppgGenerator) (baseDir : String)
    (generated userGenerated : HashMap) : Option Err :=
  match checkHash env l baseDir generated userGenerated with
  | some err => some err
  | none => checkMissing userGenerated generated

/-- The method `Check`; `none` is the nil error. -/
def Check (env : Env) (l : llcppgGenerator) (dir : String) : Option Err :=
  match env.abs dir with
  | .error err => some (.join .ErrLlcppgCheck err)
  | .ok baseDir =>
    match env.hashDir baseDir with
    | .error err => some (.join .ErrLlcppgCheck err)
    | .ok generated =>
      match env.hashDir l.dir with
      | .error err => some (.join .ErrLlcppgCheck err)
      | .ok userGenerated =>
        checkMaps env l baseDir generated userGenerated

/-- The error `Check` returns for a path reported as missing. -/
def missingErr (name : String) : Err :=
  .join .ErrLlcppgCheck (.errorf "missing file: %s" [name])

/-- The error `Check` returns for a path reported as unexpected. -/
def unexpectedErr (name : String) : Err :=
  .join .ErrLlcppgCheck (.errorf "unexpected file: %s" [name])

/-- The error `Check` returns for a path reported as mismatched, with the diff
text attached. -/
def notEqualErr (name diff : String) : Err :=
  .join .ErrLlcppgCheck (.errorf "file not equal: %s %s" [name, diff])

/-- The text of the error `r` contains `text`; false for the nil error. -/
def reports (r : Option Err) (text : String) : Bool :=
  match r with
  | none => false
  | some e => stringsContains e.Error text

/-- A path of `userGenerated` whose digest differs from the one `generated`
has for it. -/
def Mismatched (generated userGenerated : HashMap) (p : String) : Prop :=
  ∃ h g, (p, h) ∈ userGenerated ∧ generated.lookup p = some g ∧ h ≠ g

/-- A hashable path of `userGenerated` that `generated` does not have. -/
def Unexpected (generated userGenerated : HashMap) (p : String) : Prop :=
  p ∈ keys userGenerated ∧ p ∉ keys generated ∧ canHash p = true

/-- A path of `generated` that `userGenerated` does not have. -/
def Missing (generated userGenerated : HashMap) (p : String) : Prop :=
  p ∈ keys generated ∧ p ∉ keys userGenerated

/-! ## The file system -/

/-- Go `os.Stat(p)`: the node at `p`, `none` when nothing exists there. -/
def stat (fs : FS) (p : String) : Option Node := fs.lookup p

/-- The cleaned directory `root` with its closing separator, which starts every
path below it. -/
def dirSlash (root : String) : String :=
  if root = "/" then "/" else root ++ "/"

/-- The path `p` lies below the directory `root`. -/
def under (root p : String) : Bool :=
  (dirSlash root).data.isPrefixOf p.data && p != dirSlash root

/-- Writing a regular file: the node at `p` becomes a file with `data`. -/
def writeFile (fs : FS) (p : String) (data : List Nat) : FS :=
  (p, .file data) :: fs.filter (fun e => e.1 != p)

/-- Go `os.MkdirAll(p)`: nothing changes when `p` exists. -/
def MkdirAll (fs : FS) (p : String) : FS :=
  if (stat fs p).isSome then fs else (p, .dir) :: fs

/-- Go `os.RemoveAll(p)`: `p` and everything below it is gone. -/
def RemoveAll (fs : FS) (p : String) : FS :=
  fs.filter (fun e => !(e.1 == p || under p e.1))

/-- Go `os.DirFS(root)` as the walk sees it: every node below `root` with its
path relative to `root`. -/
def DirFS (fs : FS) (root : String) : List (String × Node) :=
  (fs.filter (fun e => under root e.1)).map
    (fun e => (String.mk (e.1.data.drop (dirSlash root).data.length), e.2))

/-- Go `filepath.Base(p)` for a cleaned, non-empty path: its last element. -/
def filepathBase (p : String) : String :=
  String.mk (p.data.reverse.takeWhile (fun c => c != '/')).reverse

/-- Modelled from the spec: `file.CopyFile(src, dst)` of the package
`internal/actions/file`, which is not among the embedded files. It copies the
regular file `src` to `dst`; a missing source is an error (section 4.4, step 2:
the absence of the primary config file is a hard failure). -/
def CopyFile (src dst : String) (fs : FS) : Option Err × FS :=
  match stat fs src with
  | some (.file data) => (none, writeFile fs dst data)
  | _ => (some (.sys (sprintf "open %s: no such file or directory" [src])), fs)

/-- Modelled from the spec: the walk of `file.CopyFS` (package
`internal/actions/file`, not among the embedded files), the Safe Tree Merger of
section 4.3. Every entry of the source tree is copied below `dir`; directory
creation is implicit and idempotent; when `allowOverwrite` is false, writing
over an existing destination is a hard error that aborts the merge, and when it
is true the destination is replaced. -/
def copyEntries (dir : String) (allowOverwrite : Bool) :
    List (String × Node) → FS → Option Err × FS
  | [], fs => (none, fs)
  | (rel, .dir) :: rest, fs =>
      copyEntries dir allowOverwrite rest (MkdirAll fs (filepathJoin dir rel))
  | (rel, .file data) :: rest, fs =>
      if !allowOverwrite && (stat fs (filepathJoin dir rel)).isSome then
        (some (.sys (sprintf "open %s: file exists" [filepathJoin dir rel])), fs)
      else copyEntries dir allowOverwrite rest (writeFile fs (filepathJoin dir rel) data)

/-- Modelled from the spec: `file.CopyFS(dir, fsys, allowOverwrite)`, see
`copyEntries`. -/
def CopyFS (dir : String) (fsys : List (String × Node)) (allowOverwrite : Bool)
    (fs : FS) : Option Err × FS :=
  copyEntries dir allowOverwrite fsys fs

/-! ## Generate -/

/-- The constant `goplusRepo`. -/
def goplusRepo : String := "github.com/luoliwoshang/goplus-llpkg/"

/-- The constant `llcppgGoVersion`. -/
def llcppgGoVersion : String := "1.20.14"

/-- The constant `llcppgConfigFile`. -/
def llcppgConfigFile : String := "llcppg.cfg"

/-- The machine as the program sees it: the file system, and the commands on
which `Run` (or `CombinedOutput`) has been called so far. An entry records the
call, not that the process started: the outcome of the call is what `Env.run`
returns for it. -/
structure World where
  fs : FS
  runCalls : List Cmd

/-- The function `lockGoVersion`. -/
def lockGoVersion (env : Env) (cmd : Cmd) (pcPath : String) : Cmd :=
  let cmd1 := env.pcSetPath cmd pcPath
  { cmd1 with env := cmd1.env ++ [sprintf "GOTOOLCHAIN=go%s" [llcppgGoVersion]] }

/-- The function `isExitedUnexpectedly`; `none` is the nil error. -/
def isExitedUnexpectedly : Option Err → Bool
  | some (.exitError success _) => !success
  | _ => false

/-- The method `normalizeModulePath`. -/
def normalizeModulePath (l : llcppgGenerator) : String :=
  goplusRepo ++ l.packageName

/-- The method `findSymbJSON`. -/
def findSymbJSON (env : Env) (l : llcppgGenerator) (fs : FS) : String :=
  match env.glob fs (filepathJoin l.dir "*.symb.json") with
  | m :: _ => filepathBase m
  | [] => ""

/-- The method `copyConfigFileTo`. -/
def copyConfigFileTo (env : Env) (l : llcppgGenerator) (path : String) (fs : FS) :
    Option Err × FS :=
  if l.dir = path then (none, fs)
  else
    match CopyFile (filepathJoin l.dir "llcppg.cfg") (filepathJoin path "llcppg.cfg") fs with
    | (some err, fs1) => (some err, fs1)
    | (none, fs1) =>
      let symb := findSymbJSON env l fs1
      let fs2 :=
        if symb ≠ "" then
          (CopyFile (filepathJoin l.dir symb) (filepathJoin path symb) fs1).2
        else fs1
      (none, (CopyFile (filepathJoin l.dir "llcppg.pub") (filepathJoin path "llcppg.pub") fs2).2)

/-- The command `Generate` runs: `llcppg -mod <module> llcppg.cfg` in `path`,
with the Go version locked. -/
def llcppgCmd (env : Env) (l : llcppgGenerator) (path : String) : Cmd :=
  lockGoVersion env
    { name := "llcppg", args := ["-mod", normalizeModulePath l, llcppgConfigFile],
      dir := path, env := [] } l.pcDir

/-- The part of `Generate` after `cmd.Run()` has returned `runErr`: the check
of the exit status, the check of the output, the merge and the clean-up. -/
def generateAfterRun (l : llcppgGenerator) (path : String) (runErr : Option Err)
    (w2 : World) : Option Err × World :=
  match runErr, isExitedUnexpectedly runErr with
  | some err, true => (some (.join .ErrLlcppgGenerate err), w2)
  | _, _ =>
    let generatedPath := filepathJoin path l.packageName
    match stat w2.fs generatedPath with
    | none => (some (.join .ErrLlcppgCheck (.errorf "generate fail" [])), w2)
    | some _ =>
      match CopyFS path (DirFS w2.fs generatedPath) true w2.fs with
      | (some err, fs3) => (some (.join .ErrLlcppgGenerate err), { w2 with fs := fs3 })
      | (none, fs3) => (none, { w2 with fs := RemoveAll fs3 generatedPath })

/-- The method `Generate`; the first component is the returned error (`none`
is nil), the second the machine afterwards. -/
def Generate (env : Env) (l : llcppgGenerator) (toDir : String) (w : World) :
    Option Err × World :=
  match env.abs toDir with
  | .error err => (some (.join .ErrLlcppgGenerate err), w)
  | .ok path =>
    match copyConfigFileTo env l path w.fs with
    | (some err, fs1) => (some (.join .ErrLlcppgGenerate err), { w with fs := fs1 })
    | (none, fs1) =>
      let cmd := llcppgCmd env l path
      let r := env.run cmd fs1
      generateAfterRun l path r.1 { fs := r.2, runCalls := w.runCalls ++ [cmd] }

/-! ## The command `generate` -/

/-- The part of `config.LLPkgConfig` the command reads: `Upstream.Package.Name`. -/
structure PackageConfig where
  Name : String

/-- The field `Upstream` of `config.LLPkgConfig`. -/
structure UpstreamConfig where
  Package : PackageConfig

/-- The type `config.LLPkgConfig`. -/
structure LLPkgConfig where
  Upstream : UpstreamConfig

/-- The package of an upstream (`uc.Pkg`). -/
structure UpstreamPackage where
  Name : String

/-- The installer of an upstream (`uc.Installer`): `Install(pkg, dir)` writes
into the file system and returns the name of the package-config file or an
error. -/
structure UpstreamInstaller where
  Install : UpstreamPackage → String → FS → Except Err String × FS

/-- The upstream built by `config.NewUpstreamFromConfig`. -/
structure Upstream where
  Installer : UpstreamInstaller
  Pkg : UpstreamPackage

/-- What the command takes from packages outside the embedded files. -/
structure CmdEnv where
  /-- The constant `LLGOModuleIdentifyFile`. -/
  LLGOModuleIdentifyFile : String
  /-- The function `config.ParseLLPkgConfig`. -/
  ParseLLPkgConfig : FS → String → Except Err LLPkgConfig
  /-- The function `config.NewUpstreamFromConfig`. -/
  NewUpstreamFromConfig : UpstreamConfig → Except Err Upstream
  /-- The name `os.MkdirTemp("", "llpkg-tool")` picks, or its error. -/
  tempName : FS → Except Err String
  /-- The function `file.CopyFilePattern(from, to, pattern)`. -/
  CopyFilePattern : String → String → String → FS → FS

/-- How a call ends: it returns, or the program ends through `os.Exit`. -/
inductive Exit where
  | returned
  | osExit (code : Nat)
  deriving DecidableEq

/-- Go `log.Fatal` / `log.Fatalf`: the message is printed and the program ends
with `os.Exit(1)`. -/
def logFatal (w : World) : Exit × World := (.osExit 1, w)

/-- Go `defer f()` around the rest of a function body: `f` runs when the body
returns; deferred calls do not run when the program ends through `os.Exit`. -/
def withDefer (f : World → World) (body : Exit × World) : Exit × World :=
  match body with
  | (.returned, w) => (.returned, f w)
  | (.osExit code, w) => (.osExit code, w)

/-- Go `os.MkdirTemp`: the new directory and the file system holding it. -/
def MkdirTemp (sys : CmdEnv) (fs : FS) : Except Err (String × FS) :=
  match sys.tempName fs with
  | .error err => .error err
  | .ok name => .ok (name, (name, .dir) :: fs)

/-- The body of `runLLCppgGenerateWithDir` after `defer os.RemoveAll(tempDir)`. -/
def runWithTempDir (env : Env) (sys : CmdEnv) (dir : String) (cfg : LLPkgConfig)
    (uc : Upstream) (tempDir : String) (w : World) : Exit × World :=
  match uc.Installer.Install uc.Pkg tempDir w.fs with
  | (.error _, fs2) => logFatal { w with fs := fs2 }
  | (.ok pcName, fs2) =>
    let fs3 := sys.CopyFilePattern tempDir dir "*.pc" fs2
    let w3 : World := { w with fs := fs3 }
    let generate := fun (w4 : World) =>
      match Generate env (New dir cfg.Upstream.Package.Name tempDir) dir w4 with
      | (some _, w5) => logFatal w5
      | (none, w5) => (Exit.returned, w5)
    match stat fs3 (filepathJoin dir "llcppg.cfg") with
    | none =>
      let cmd := env.pcSetPath { name := "llcppcfg", args := [pcName], dir := dir, env := [] }
        tempDir
      match env.run cmd fs3 with
      | (some _, fs4) => logFatal { fs := fs4, runCalls := w.runCalls ++ [cmd] }
      | (none, fs4) => generate { fs := fs4, runCalls := w.runCalls ++ [cmd] }
    | some _ => generate w3

/-- The function `runLLCppgGenerateWithDir`. -/
def runLLCppgGenerateWithDir (env : Env) (sys : CmdEnv) (dir : String) (w : World) :
    Exit × World :=
  match sys.ParseLLPkgConfig w.fs (filepathJoin dir sys.LLGOModuleIdentifyFile) with
  | .error _ => logFatal w
  | .ok cfg =>
    match sys.NewUpstreamFromConfig cfg.Upstream with
    | .error _ => logFatal w
    | .ok uc =>
      match MkdirTemp sys w.fs with
      | .error _ => logFatal w
      | .ok (tempDir, fs1) =>
        withDefer (fun w1 => { w1 with fs := RemoveAll w1.fs tempDir })
          (runWithTempDir env sys dir cfg uc tempDir { w with fs := fs1 })

/-! ## Concrete machines -/

/-- An environment for `Check` in which the directory "/ref" hashes to
`generated` and every other directory to `userGenerated`. -/
def checkEnv (generated userGenerated : HashMap) : Env :=
  { abs := fun d => .ok d
    hashDir := fun d => if d = "/ref" then .ok generated else .ok userGenerated
    gitDiff := fun _ _ => "diff"
    glob := fun _ _ => []
    pcSetPath := fun c _ => c
    run := fun _ fs => (none, fs) }

/-- The generator of the submitted tree "/user". -/
def userGen : llcppgGenerator := New "/user" "cjson" "/tmp/pc"

/-- An environment for `Generate` whose external commands behave as `run`. -/
def genEnv (run : Cmd → FS → Option Err × FS) : Env :=
  { abs := fun d => .ok d
    hashDir := fun _ => .ok []
    gitDiff := fun _ _ => ""
    glob := fun _ _ => []
    pcSetPath := fun c p => { c with env := c.env ++ ["PKG_CONFIG_PATH=" ++ p] }
    run := run }

/-- An llcppg that exits with status 1 and writes nothing. -/
def runExit1 : Cmd → FS → Option Err × FS :=
  fun _ fs => (some (.exitError false "exit status 1"), fs)

/-- An llcppg that cannot be started: the error of `cmd.Run()` is not an
`*exec.ExitError`. -/
def runNotFound : Cmd → FS → Option Err × FS :=
  fun _ fs => (some (.sys "exec: llcppg: executable file not found in PATH"), fs)

/-- An llcppg that succeeds and writes the package cjson, with cjson.go and
go.mod, below its working directory. -/
def runWritesCjson : Cmd → FS → Option Err × FS :=
  fun cmd fs =>
    (none,
     [(filepathJoin cmd.dir "cjson", Node.dir),
      (filepathJoin (filepathJoin cmd.dir "cjson") "cjson.go", Node.file [20]),
      (filepathJoin (filepathJoin cmd.dir "cjson") "go.mod", Node.file [30])] ++ fs)

/-- A command environment whose config parses, whose temporary directory is
"/tmp/llpkg-tool1" and whose installer behaves as `install`. -/
def cmdEnv (install : UpstreamPackage → String → FS → Except Err String × FS) : CmdEnv :=
  { LLGOModuleIdentifyFile := "llpkg.cfg"
    ParseLLPkgConfig := fun _ _ => .ok { Upstream := { Package := { Name := "cjson" } } }
    NewUpstreamFromConfig := fun c =>
      .ok { Installer := { Install := install }, Pkg := { Name := c.Package.Name } }
    tempName := fun _ => .ok "/tmp/llpkg-tool1"
    CopyFilePattern := fun _ _ _ fs => fs }

/-- An installer that fails after it wrote a file into the scratch directory. -/
def installFails : UpstreamPackage → String → FS → Except Err String × FS :=
  fun _ tempDir fs =>
    (.error (.sys "conan install failed"),
     (filepathJoin tempDir "conanfile.txt", Node.file [1]) :: fs)

/-- An installer that writes cjson.pc into the scratch directory. -/
def installOk : UpstreamPackage → String → FS → Except Err String × FS :=
  fun pkg tempDir fs =>
    (.ok pkg.Name, (filepathJoin tempDir (pkg.Name ++ ".pc"), Node.file [1]) :: fs)

/-- A directory "/work" without llcppg.cfg. -/
def fsNoConfig : FS := [("/work", .dir)]

/-- A directory "/work" with llcppg.cfg and a file cjson.go of its own. -/
def fsWithCjsonGo : FS :=
  [("/work", .dir), ("/work/llcppg.cfg", .file [1]), ("/work/cjson.go", .file [10])]

/-- A directory "/work" with llcppg.cfg that already holds a package
directory cjson. -/
def fsStaleOutput : FS :=
  [("/work", .dir), ("/work/llcppg.cfg", .file [1]), ("/work/cjson", .dir),
   ("/work/cjson/cjson.go", .file [5])]

/-- A directory "/work" with llcppg.cfg. -/
def fsWork : FS := [("/work", .dir), ("/work/llcppg.cfg", .file [1])]

/-! ## Lemmas on strings -/

theorem containsChars_iff (s sub : List Char) :
    containsChars s sub = true ↔ sub <:+: s := by
  induction s with
  | nil => simp [containsChars]
  | cons c s ih =>
    simp only [containsChars, Bool.or_eq_true, ih, List.isPrefixOf_iff_prefix]
    exact List.infix_cons_iff.symm

theorem mem_canHashFile (p : String) :
    p ∈ canHashFile ↔ p = "llcppg.pub" ∨ p = "go.mod" ∨ p = "go.sum" := by
  simp [canHashFile]

theorem canHash_eq_true_iff (p : String) :
    canHash p = true ↔
      ".go".data <:+: p.data ∨ p = "llcppg.pub" ∨ p = "go.mod" ∨ p = "go.sum" := by
  unfold canHash stringsContains
  by_cases h : containsChars p.data ".go".data = true
  · simp only [h, if_true, true_iff]
    exact Or.inl ((containsChars_iff _ _).1 h)
  · have h2 : ¬ (".go".data <:+: p.data) := fun hh => h ((containsChars_iff _ _).2 hh)
    simp only [h, if_false, decide_eq_true_eq, mem_canHashFile, h2, false_or, Bool.false_eq_true]

/-! ## Lemmas on the two sweeps of Check -/

theorem lookup_eq_none_iff_not_mem_keys (m : HashMap) (p : String) :
    m.lookup p = none ↔ p ∉ keys m := by
  induction m with
  | nil => simp [keys]
  | cons e m ih =>
    obtain ⟨k, v⟩ := e
    by_cases h : p = k
    · subst h; simp [keys]
    · have hb : (p == k) = false := by simpa using h
      simp only [List.lookup_cons, hb, ih, keys, List.map_cons, List.mem_cons, h, false_or]

theorem lookup_filter_bne {β : Type} (m : List (String × β)) (p n : String) (hn : n ≠ p) :
    (m.filter (fun e => e.1 != p)).lookup n = m.lookup n := by
  induction m with
  | nil => rfl
  | cons e m ih =>
    obtain ⟨k, v⟩ := e
    by_cases hk : k = p
    · subst hk
      have hb : (n == k) = false := by simpa using hn
      have hb2 : (k != k) = false := by simp
      simp only [List.filter_cons, hb2, Bool.false_eq_true, if_false, List.lookup_cons, hb, ih]
    · have hb2 : (k != p) = true := by simpa using hk
      simp only [List.filter_cons, hb2, if_true, List.lookup_cons, ih]

theorem lookup_of_mem_nodup (m : HashMap) (hn : (keys m).Nodup) (p : String) (h : List Nat) :
    (p, h) ∈ m ↔ m.lookup p = some h := by
  induction m with
  | nil => simp
  | cons e m ih =>
    obtain ⟨k, v⟩ := e
    simp only [keys, List.map_cons, List.nodup_cons] at hn
    by_cases hk : p = k
    · subst hk
      have : ∀ x, (p, x) ∉ m := fun x hx => hn.1 (List.mem_map.2 ⟨(p, x), hx, rfl⟩)
      simp [this, eq_comm]
    · have hb : (p == k) = false := by simpa using hk
      simp only [List.mem_cons, Prod.mk.injEq, hk, false_and, false_or, List.lookup_cons, hb]
      exact ih hn.2

/-- The sweep over `userGenerated` finds nothing exactly when every entry is
present in `generated` with an equal digest, or absent and not hashable. -/
theorem checkHash_eq_none_iff (env : Env) (l : llcppgGenerator) (baseDir : String)
    (generated user : HashMap) :
    checkHash env l baseDir generated user = none ↔
      ∀ e ∈ user, generated.lookup e.1 = some e.2 ∨
        (generated.lookup e.1 = none ∧ canHash e.1 = false) := by
  induction user with
  | nil => simp [checkHash]
  | cons e user ih =>
    obtain ⟨name, hash⟩ := e
    simp only [checkHash, List.mem_cons, forall_eq_or_imp]
    cases hg : generated.lookup name with
    | none =>
      by_cases hc : canHash name = true
      · simp [hc]
      · simp [hc, ih]
    | some g =>
      by_cases hh : hash = g
      · simp [hh, ih]
      · have : g ≠ hash := fun x => hh x.symm
        simp [hh, this]

/-- An error of the sweep over `userGenerated` is the finding of one of its
entries: absent from `generated` and hashable, or present with another digest. -/
theorem checkHash_eq_some (env : Env) (l : llcppgGenerator) (baseDir : String)
    (generated user : HashMap) (err : Err)
    (h : checkHash env l baseDir generated user = some err) :
    ∃ name hash, (name, hash) ∈ user ∧
      ((generated.lookup name = none ∧ canHash name = true ∧ err = unexpectedErr name) ∨
       (∃ g, generated.lookup name = some g ∧ hash ≠ g ∧
          err = notEqualErr name
            (diffTwoFiles env (filepathJoin l.dir name) (filepathJoin baseDir name)))) := by
  induction user with
  | nil => simp [checkHash] at h
  | cons e user ih =>
    obtain ⟨name, hash⟩ := e
    simp only [checkHash] at h
    cases hg : generated.lookup name with
    | none =>
      rw [hg] at h
      by_cases hc : canHash name = true
      · simp only [hc, if_true, Option.some.injEq] at h
        exact ⟨name, hash, List.mem_cons_self _ _, Or.inl ⟨hg, hc, h.symm⟩⟩
      · simp only [hc, if_false, Bool.false_eq_true] at h
        obtain ⟨n, x, hm, hr⟩ := ih h
        exact ⟨n, x, List.mem_cons_of_mem _ hm, hr⟩
    | some g =>
      rw [hg] at h
      by_cases hh : hash = g
      · simp only [hh, ne_eq, not_true_eq_false, if_false] at h
        obtain ⟨n, x, hm, hr⟩ := ih h
        exact ⟨n, x, List.mem_cons_of_mem _ hm, hr⟩
      · simp only [ne_eq, hh, not_false_eq_true, if_true, Option.some.injEq] at h
        exact ⟨name, hash, List.mem_cons_self _ _, Or.inr ⟨g, hg, hh, h.symm⟩⟩

theorem checkMissing_eq_none_iff (user generated : HashMap) :
    checkMissing user generated = none ↔ ∀ n ∈ keys generated, n ∈ keys user := by
  induction generated with
  | nil => simp [checkMissing, keys]
  | cons e generated ih =>
    obtain ⟨name, hash⟩ := e
    simp only [checkMissing, keys, List.map_cons, List.mem_cons, forall_eq_or_imp]
    cases hu : user.lookup name with
    | none =>
      have hnot : name ∉ List.map Prod.fst user :=
        (lookup_eq_none_iff_not_mem_keys user name).1 hu
      constructor
      · intro hx; exact Option.noConfusion hx
      · intro hx; exact absurd hx.1 hnot
    | some v =>
      have : name ∈ keys user := by
        by_contra hc
        rw [(lookup_eq_none_iff_not_mem_keys user name).2 hc] at hu
        exact Option.noConfusion hu
      simp only [keys] at this ih
      simp [this, ih]

theorem checkMissing_eq_some (user generated : HashMap) (err : Err)
    (h : checkMissing user generated = some err) :
    ∃ n ∈ keys generated, n ∉ keys user ∧ err = missingErr n := by
  induction generated with
  | nil => simp [checkMissing] at h
  | cons e generated ih =>
    obtain ⟨name, hash⟩ := e
    simp only [checkMissing] at h
    cases hu : user.lookup name with
    | none =>
      rw [hu] at h
      simp only [Option.some.injEq] at h
      exact ⟨name, by simp [keys], (lookup_eq_none_iff_not_mem_keys user name).1 hu, h.symm⟩
    | some v =>
      rw [hu] at h
      obtain ⟨n, hn, hr⟩ := ih h
      exact ⟨n, by simp only [keys, List.map_cons, List.mem_cons]; exact Or.inr hn, hr⟩

theorem Check_eq_checkMaps (env : Env) (l : llcppgGenerator) (dir baseDir : String)
    (generated user : HashMap)
    (hAbs : env.abs dir = .ok baseDir) (hGen : env.hashDir baseDir = .ok generated)
    (hUser : env.hashDir l.dir = .ok user) :
    Check env l dir = checkMaps env l baseDir generated user := by
  simp only [Check, hAbs, hGen, hUser]


theorem mem_keys_of_mem {m : HashMap} {p : String} {h : List Nat} (hm : (p, h) ∈ m) :
    p ∈ keys m := List.mem_map.2 ⟨(p, h), hm, rfl⟩

theorem checkMaps_eq_none_iff (env : Env) (l : llcppgGenerator) (baseDir : String)
    (generated user : HashMap) :
    checkMaps env l baseDir generated user = none ↔
      checkHash env l baseDir generated user = none ∧ checkMissing user generated = none := by
  unfold checkMaps
  cases checkHash env l baseDir generated user <;> simp

theorem checkMaps_wraps (env : Env) (l : llcppgGenerator) (baseDir : String)
    (generated user : HashMap) (err : Err)
    (h : checkMaps env l baseDir generated user = some err) :
    err.wraps .ErrLlcppgCheck = true := by
  unfold checkMaps at h
  cases hc : checkHash env l baseDir generated user with
  | some e =>
    rw [hc] at h
    simp only [Option.some.injEq] at h
    subst h
    obtain ⟨n, x, _, ⟨_, _, hr⟩ | ⟨g, _, _, hr⟩⟩ := checkHash_eq_some _ _ _ _ _ _ hc <;>
      · rw [hr]; simp [unexpectedErr, notEqualErr, Err.wraps]
  | none =>
    rw [hc] at h
    obtain ⟨n, _, _, hr⟩ := checkMissing_eq_some _ _ _ h
    rw [hr]; simp [missingErr, Err.wraps]

/-- Every result of the two sweeps: nil exactly without findings, otherwise
the error of one finding, a missing path only after a clean first sweep. -/
theorem checkMaps_cases (env : Env) (l : llcppgGenerator) (baseDir : String)
    (generated user : HashMap) :
    (checkMaps env l baseDir generated user = none ↔
      ∀ p, ¬ Mismatched generated user p ∧ ¬ Unexpected generated user p ∧
        ¬ Missing generated user p) ∧
    ∀ err, checkMaps env l baseDir generated user = some err →
      (∃ p, Mismatched generated user p ∧ err = notEqualErr p
          (diffTwoFiles env (filepathJoin l.dir p) (filepathJoin baseDir p))) ∨
      (∃ p, Unexpected generated user p ∧ err = unexpectedErr p) ∨
      (∃ p, Missing generated user p ∧ err = missingErr p ∧
          ∀ q, ¬ Mismatched generated user q ∧ ¬ Unexpected generated user q) := by
  have clean : checkHash env l baseDir generated user = none →
      ∀ q, ¬ Mismatched generated user q ∧ ¬ Unexpected generated user q := by
    intro hc q
    rw [checkHash_eq_none_iff] at hc
    refine ⟨?_, ?_⟩
    · rintro ⟨h, g, hm, hg, hne⟩
      rcases hc (q, h) hm with h1 | ⟨h1, _⟩
      · rw [hg] at h1; exact hne (Option.some.inj h1).symm
      · rw [hg] at h1; exact Option.noConfusion h1
    · rintro ⟨hk, hng, hcan⟩
      obtain ⟨⟨k, h⟩, hm, hk2⟩ := List.mem_map.1 hk
      simp only at hk2; subst hk2
      have hnone := (lookup_eq_none_iff_not_mem_keys generated k).2 hng
      rcases hc (k, h) hm with h1 | ⟨_, h2⟩
      · rw [hnone] at h1; exact Option.noConfusion h1
      · rw [hcan] at h2; exact Bool.noConfusion h2
  refine ⟨?_, ?_⟩
  · rw [checkMaps_eq_none_iff]
    constructor
    · rintro ⟨hc, hm⟩ p
      refine ⟨(clean hc p).1, (clean hc p).2, ?_⟩
      rintro ⟨hg, hu⟩
      exact hu ((checkMissing_eq_none_iff _ _).1 hm p hg)
    · intro hall
      refine ⟨?_, ?_⟩
      · rw [checkHash_eq_none_iff]
        rintro ⟨k, h⟩ hm
        cases hg : generated.lookup k with
        | none =>
          right
          refine ⟨rfl, ?_⟩
          cases hcan : canHash k with
          | false => rfl
          | true =>
            exact absurd ⟨mem_keys_of_mem hm,
              (lookup_eq_none_iff_not_mem_keys generated k).1 hg, hcan⟩ (hall k).2.1
        | some g =>
          left
          by_cases hh : h = g
          · simp [hh]
          · exact absurd ⟨h, g, hm, hg, hh⟩ (hall k).1
      · rw [checkMissing_eq_none_iff]
        intro n hn
        by_contra hc
        exact (hall n).2.2 ⟨hn, hc⟩
  · intro err h
    unfold checkMaps at h
    cases hc : checkHash env l baseDir generated user with
    | some e =>
      rw [hc] at h
      simp only [Option.some.injEq] at h
      subst h
      obtain ⟨n, x, hm, ⟨hg, hcan, hr⟩ | ⟨g, hg, hne, hr⟩⟩ := checkHash_eq_some _ _ _ _ _ _ hc
      · exact Or.inr (Or.inl ⟨n, ⟨mem_keys_of_mem hm,
          (lookup_eq_none_iff_not_mem_keys generated n).1 hg, hcan⟩, hr⟩)
      · exact Or.inl ⟨n, ⟨x, g, hm, hg, hne⟩, hr⟩
    | none =>
      rw [hc] at h
      obtain ⟨n, hn, hu, hr⟩ := checkMissing_eq_some _ _ _ h
      exact Or.inr (Or.inr ⟨n, ⟨hn, hu⟩, hr, clean hc⟩)


/-! ## Hashable files: the claims -/

/-- C7: `canHash p` is true exactly when `p` contains the substring ".go" or is
one of "llcppg.pub", "go.mod", "go.sum"; an allow-listed name under a
subdirectory, "sub/llcppg.pub", is not hashable. -/
theorem canHash_iff_marker_or_listed (p : String) :
    (canHash p = true ↔
      ".go".data <:+: p.data ∨ p = "llcppg.pub" ∨ p = "go.mod" ∨ p = "go.sum") ∧
    canHash "sub/llcppg.pub" = false :=
  ⟨canHash_eq_true_iff p, by decide⟩

/-- C8, counterexample: "go.mod" is hashable although it neither ends in ".go"
nor in ".symb.json" nor is "llcppg.pub". -/
theorem canHash_go_mod_outside_doc_comment :
    ¬ (canHash "go.mod" = true ↔
        ".go".data <:+ "go.mod".data ∨ "go.mod" = "llcppg.pub" ∨
          ".symb.json".data <:+ "go.mod".data) := by
  decide

/-- C8, amended: every name that ends in ".go" and each of "llcppg.pub",
"go.mod", "go.sum" is hashable; a hashable name that does not end in
".symb.json" contains ".go" or is one of these three names. -/
theorem canHash_doc_comment_amended (f : String) :
    ((".go".data <:+ f.data ∨ f = "llcppg.pub" ∨ f = "go.mod" ∨ f = "go.sum") →
      canHash f = true) ∧
    (¬ (".symb.json".data <:+ f.data) → canHash f = true →
      (".go".data <:+: f.data ∨ f = "llcppg.pub" ∨ f = "go.mod" ∨ f = "go.sum")) := by
  refine ⟨?_, ?_⟩
  · intro h
    rw [canHash_eq_true_iff]
    rcases h with h | h
    · exact Or.inl h.isInfix
    · exact Or.inr h
  · intro _ h
    exact (canHash_eq_true_iff f).1 h

/-- C8, witness: the amended statement at go.mod and at cjson.go. -/
theorem canHash_doc_comment_amended_witness :
    canHash "go.mod" = true ∧
    (".go".data <:+: "cjson.go".data ∨ "cjson.go" = "llcppg.pub" ∨ "cjson.go" = "go.mod" ∨
      "cjson.go" = "go.sum") :=
  ⟨(canHash_doc_comment_amended "go.mod").1 (by decide),
   (canHash_doc_comment_amended "cjson.go").2 (by decide) (by decide)⟩

/-! ## Check: the claims -/

/-- C3, counterexample: with the reference map {a.go, b.go} and an empty
submitted map both paths are missing, and Check returns the error for a.go
alone; its text does not name b.go. -/
theorem Check_reports_only_first_missing :
    Missing [("a.go", [1]), ("b.go", [2])] [] "a.go" ∧
    Missing [("a.go", [1]), ("b.go", [2])] [] "b.go" ∧
    Check (checkEnv [("a.go", [1]), ("b.go", [2])] []) userGen "/ref"
      = some (missingErr "a.go") ∧
    reports (Check (checkEnv [("a.go", [1]), ("b.go", [2])] []) userGen "/ref")
      "b.go" = false := by
  refine ⟨⟨by decide, by decide⟩, ⟨by decide, by decide⟩, by decide, by decide⟩

/-- C3, amended: Check stops at the first finding. It returns nil exactly when
no path is mismatched, unexpected or missing; otherwise it returns one error
wrapping ErrLlcppgCheck that reports a single genuine finding: a mismatched or
an unexpected path of the submitted map, or, when the submitted map has neither,
a missing path. -/
theorem Check_stops_at_first_finding (env : Env) (l : llcppgGenerator)
    (dir baseDir : String) (generated userGenerated : HashMap)
    (hAbs : env.abs dir = .ok baseDir) (hGen : env.hashDir baseDir = .ok generated)
    (hUser : env.hashDir l.dir = .ok userGenerated) :
    (Check env l dir = none ↔
      ∀ p, ¬ Mismatched generated userGenerated p ∧ ¬ Unexpected generated userGenerated p ∧
        ¬ Missing generated userGenerated p) ∧
    ∀ err, Check env l dir = some err →
      err.wraps .ErrLlcppgCheck = true ∧
      ((∃ p, Mismatched generated userGenerated p ∧ err = notEqualErr p
          (diffTwoFiles env (filepathJoin l.dir p) (filepathJoin baseDir p))) ∨
       (∃ p, Unexpected generated userGenerated p ∧ err = unexpectedErr p) ∨
       (∃ p, Missing generated userGenerated p ∧ err = missingErr p ∧
          ∀ q, ¬ Mismatched generated userGenerated q ∧
            ¬ Unexpected generated userGenerated q)) := by
  rw [Check_eq_checkMaps env l dir baseDir generated userGenerated hAbs hGen hUser]
  refine ⟨(checkMaps_cases env l baseDir generated userGenerated).1, ?_⟩
  intro err h
  exact ⟨checkMaps_wraps _ _ _ _ _ _ h,
    (checkMaps_cases env l baseDir generated userGenerated).2 err h⟩

/-- C3, witness: two maps with the same entries, visited in different orders. -/
theorem Check_stops_at_first_finding_witness :
    Check (checkEnv [("a.go", [1]), ("b.go", [2])] [("b.go", [2]), ("a.go", [1])])
        userGen "/ref" = none ↔
      ∀ p, ¬ Mismatched [("a.go", [1]), ("b.go", [2])] [("b.go", [2]), ("a.go", [1])] p ∧
        ¬ Unexpected [("a.go", [1]), ("b.go", [2])] [("b.go", [2]), ("a.go", [1])] p ∧
        ¬ Missing [("a.go", [1]), ("b.go", [2])] [("b.go", [2]), ("a.go", [1])] p :=
  (Check_stops_at_first_finding
    (checkEnv [("a.go", [1]), ("b.go", [2])] [("b.go", [2]), ("a.go", [1])])
    userGen "/ref" "/ref" [("a.go", [1]), ("b.go", [2])] [("b.go", [2]), ("a.go", [1])]
    rfl rfl rfl).1

/-- C4: when the submitted map has unique, hashable keys, Check returns nil if
and only if both maps have the same key set and equal digests for every key,
whatever the order in which the two maps are visited. -/
theorem Check_nil_iff_same_keys_and_digests (env : Env) (l : llcppgGenerator)
    (dir baseDir : String) (generated userGenerated : HashMap)
    (hAbs : env.abs dir = .ok baseDir) (hGen : env.hashDir baseDir = .ok generated)
    (hUser : env.hashDir l.dir = .ok userGenerated)
    (hNodup : (keys userGenerated).Nodup)
    (hHashable : ∀ k ∈ keys userGenerated, canHash k = true) :
    Check env l dir = none ↔
      (∀ k, k ∈ keys userGenerated ↔ k ∈ keys generated) ∧
      (∀ k h g, userGenerated.lookup k = some h → generated.lookup k = some g → h = g) := by
  rw [Check_eq_checkMaps env l dir baseDir generated userGenerated hAbs hGen hUser,
    checkMaps_eq_none_iff, checkHash_eq_none_iff, checkMissing_eq_none_iff]
  constructor
  · rintro ⟨hu, hm⟩
    have hsome : ∀ e ∈ userGenerated, generated.lookup e.1 = some e.2 := by
      intro e he
      rcases hu e he with h1 | ⟨_, h2⟩
      · exact h1
      · rw [hHashable e.1 (List.mem_map.2 ⟨e, he, rfl⟩)] at h2
        exact Bool.noConfusion h2
    refine ⟨fun k => ⟨?_, hm k⟩, ?_⟩
    · intro hk
      obtain ⟨e, he, hk2⟩ := List.mem_map.1 hk
      subst hk2
      by_contra hc
      have hx := hsome e he
      rw [(lookup_eq_none_iff_not_mem_keys generated e.1).2 hc] at hx
      exact Option.noConfusion hx
    · intro k h g hku hkg
      have := hsome (k, h) ((lookup_of_mem_nodup userGenerated hNodup k h).2 hku)
      simp only at this
      rw [hkg] at this
      exact (Option.some.inj this).symm
  · rintro ⟨hkeys, hdig⟩
    refine ⟨?_, fun n hn => (hkeys n).2 hn⟩
    rintro ⟨k, h⟩ he
    left
    have hk : k ∈ keys generated := (hkeys k).1 (mem_keys_of_mem he)
    cases hg : generated.lookup k with
    | none => exact absurd hk ((lookup_eq_none_iff_not_mem_keys generated k).1 hg)
    | some g =>
      have := hdig k h g ((lookup_of_mem_nodup userGenerated hNodup k h).1 he) hg
      simp [this]

/-- C4, witness: two byte-identical trees, visited in different orders. -/
theorem Check_nil_iff_same_keys_and_digests_witness :
    Check (checkEnv [("a.go", [1]), ("go.mod", [2])] [("go.mod", [2]), ("a.go", [1])])
        userGen "/ref" = none ↔
      (∀ k, k ∈ keys [("go.mod", [2]), ("a.go", [1])] ↔
        k ∈ keys [("a.go", [1]), ("go.mod", [2])]) ∧
      (∀ k h g, List.lookup k [("go.mod", [2]), ("a.go", [1])] = some h →
        List.lookup k [("a.go", [1]), ("go.mod", [2])] = some g → h = g) :=
  Check_nil_iff_same_keys_and_digests
    (checkEnv [("a.go", [1]), ("go.mod", [2])] [("go.mod", [2]), ("a.go", [1])])
    userGen "/ref" "/ref" [("a.go", [1]), ("go.mod", [2])] [("go.mod", [2]), ("a.go", [1])]
    rfl rfl rfl (by decide) (by decide)


theorem checkHash_unexpected_of_rest_clean (env : Env) (l : llcppgGenerator)
    (baseDir : String) (generated user : HashMap) (p : String)
    (hp : p ∈ keys user) (hnp : p ∉ keys generated) (hcan : canHash p = true)
    (hrest : ∀ e ∈ user, e.1 ≠ p → generated.lookup e.1 = some e.2 ∨
      (generated.lookup e.1 = none ∧ canHash e.1 = false)) :
    checkHash env l baseDir generated user = some (unexpectedErr p) := by
  induction user with
  | nil => simp [keys] at hp
  | cons e user ih =>
    obtain ⟨name, hash⟩ := e
    by_cases hn : name = p
    · subst hn
      simp [checkHash, (lookup_eq_none_iff_not_mem_keys generated name).2 hnp, hcan,
        unexpectedErr]
    · have hp2 : p ∈ keys user := by
        simp only [keys, List.map_cons, List.mem_cons] at hp
        rcases hp with hp | hp
        · exact absurd hp.symm hn
        · exact hp
      have ih2 := ih hp2 (fun e he hne => hrest e (List.mem_cons_of_mem _ he) hne)
      rcases hrest (name, hash) (List.mem_cons_self _ _) hn with h1 | ⟨h1, h2⟩
      · simp only at h1
        simp [checkHash, h1, ih2]
      · simp only at h1 h2
        simp [checkHash, h1, h2, ih2]

theorem checkHash_filter_stray (env : Env) (l : llcppgGenerator)
    (baseDir : String) (generated user : HashMap) (p : String)
    (hnp : p ∉ keys generated) (hcan : canHash p = false) :
    checkHash env l baseDir generated (user.filter (fun e => e.1 != p))
      = checkHash env l baseDir generated user := by
  induction user with
  | nil => rfl
  | cons e user ih =>
    obtain ⟨name, hash⟩ := e
    by_cases hn : name = p
    · subst hn
      have hb : (name != name) = false := by simp
      simp only [List.filter_cons, hb, Bool.false_eq_true, if_false, checkHash,
        (lookup_eq_none_iff_not_mem_keys generated name).2 hnp, hcan, ih]
    · have hb : (name != p) = true := by simpa using hn
      simp only [List.filter_cons, hb, if_true, checkHash, ih]

theorem checkMissing_filter_stray (generated user : HashMap) (p : String)
    (hnp : p ∉ keys generated) :
    checkMissing (user.filter (fun e => e.1 != p)) generated
      = checkMissing user generated := by
  induction generated with
  | nil => rfl
  | cons e generated ih =>
    obtain ⟨name, hash⟩ := e
    simp only [keys, List.map_cons, List.mem_cons, not_or] at hnp
    have hne : name ≠ p := fun h => hnp.1 h.symm
    simp only [checkMissing, lookup_filter_bne user p name hne]
    rw [ih hnp.2]

/-- C5, counterexample: the reference map has bar.go and foo.go, the submitted
map has foo.go with another digest and lacks bar.go; Check returns the mismatch
of foo.go and its text does not report bar.go as missing. -/
theorem Check_mismatch_hides_missing :
    Missing [("bar.go", [1]), ("foo.go", [2])] [("foo.go", [3])] "bar.go" ∧
    Check (checkEnv [("bar.go", [1]), ("foo.go", [2])] [("foo.go", [3])]) userGen "/ref"
      = some (notEqualErr "foo.go" "diff") ∧
    reports (Check (checkEnv [("bar.go", [1]), ("foo.go", [2])] [("foo.go", [3])])
      userGen "/ref") "missing file" = false := by
  refine ⟨⟨by decide, by decide⟩, by decide, by decide⟩

/-- C5, amended: for a path p of the reference map that the submitted map
lacks, Check always fails with an error wrapping ErrLlcppgCheck and never
reports p as mismatched or unexpected; when the sweep over the submitted map
finds nothing and p is the only such path, the error is "missing file: p". -/
theorem Check_missing_never_mismatched (env : Env) (l : llcppgGenerator)
    (dir baseDir : String) (generated userGenerated : HashMap) (p : String)
    (hAbs : env.abs dir = .ok baseDir) (hGen : env.hashDir baseDir = .ok generated)
    (hUser : env.hashDir l.dir = .ok userGenerated)
    (hp : p ∈ keys generated) (hnp : p ∉ keys userGenerated) :
    (∃ err, Check env l dir = some err ∧ err.wraps .ErrLlcppgCheck = true) ∧
    (∀ d, Check env l dir ≠ some (notEqualErr p d)) ∧
    Check env l dir ≠ some (unexpectedErr p) ∧
    ((∀ e ∈ userGenerated, generated.lookup e.1 = some e.2 ∨
        (generated.lookup e.1 = none ∧ canHash e.1 = false)) →
      (∀ q ∈ keys generated, q ∉ keys userGenerated → q = p) →
      Check env l dir = some (missingErr p)) := by
  rw [Check_eq_checkMaps env l dir baseDir generated userGenerated hAbs hGen hUser]
  have hcases := (checkMaps_cases env l baseDir generated userGenerated).2
  have hnotU : ∀ q, Unexpected generated userGenerated q → q ≠ p :=
    fun q hq hqp => hnp (hqp ▸ hq.1)
  have hnotM : ∀ q, Mismatched generated userGenerated q → q ≠ p := by
    rintro q ⟨h, g, hm, _, _⟩ hqp
    exact hnp (hqp ▸ mem_keys_of_mem hm)
  refine ⟨?_, ?_, ?_, ?_⟩
  · cases hc : checkMaps env l baseDir generated userGenerated with
    | none =>
      exact absurd ⟨hp, hnp⟩
        (((checkMaps_cases env l baseDir generated userGenerated).1.1 hc) p).2.2
    | some err => exact ⟨err, rfl, checkMaps_wraps _ _ _ _ _ _ hc⟩
  · intro d h
    rcases hcases _ h with ⟨q, hq, he⟩ | ⟨q, _, he⟩ | ⟨q, _, he, _⟩
    · simp only [notEqualErr, Err.join.injEq, Err.errorf.injEq, List.cons.injEq, true_and] at he
      exact hnotM q hq he.1.symm
    · simp [notEqualErr, unexpectedErr] at he
    · simp [notEqualErr, missingErr] at he
  · intro h
    rcases hcases _ h with ⟨q, _, he⟩ | ⟨q, hq, he⟩ | ⟨q, _, he, _⟩
    · simp [notEqualErr, unexpectedErr] at he
    · simp only [unexpectedErr, Err.join.injEq, Err.errorf.injEq, List.cons.injEq, true_and,
        and_true] at he
      exact hnotU q hq he.symm
    · simp [unexpectedErr, missingErr] at he
  · intro hclean honly
    have hc := (checkHash_eq_none_iff env l baseDir generated userGenerated).2 hclean
    cases hm : checkMaps env l baseDir generated userGenerated with
    | none =>
      exact absurd ⟨hp, hnp⟩
        (((checkMaps_cases env l baseDir generated userGenerated).1.1 hm) p).2.2
    | some err =>
      unfold checkMaps at hm
      rw [hc] at hm
      obtain ⟨n, hn, hu, hr⟩ := checkMissing_eq_some _ _ _ hm
      rw [hr, honly n hn hu]

/-- C5, witness: the reference has bar.go, the submitted tree lacks it and
agrees on foo.go; Check reports bar.go as missing. -/
theorem Check_missing_never_mismatched_witness :
    Check (checkEnv [("bar.go", [1]), ("foo.go", [2])] [("foo.go", [2])]) userGen "/ref"
      = some (missingErr "bar.go") :=
  (Check_missing_never_mismatched
    (checkEnv [("bar.go", [1]), ("foo.go", [2])] [("foo.go", [2])]) userGen "/ref" "/ref"
    [("bar.go", [1]), ("foo.go", [2])] [("foo.go", [2])] "bar.go"
    rfl rfl rfl (by decide) (by decide)).2.2.2 (by decide) (by decide)

/-- C6, counterexample: the submitted map has a.go with another digest and the
extra hashable file extra.go; Check returns the mismatch of a.go and its text
reports no unexpected file. -/
theorem Check_mismatch_hides_unexpected :
    Unexpected [("a.go", [1])] [("a.go", [2]), ("extra.go", [3])] "extra.go" ∧
    Check (checkEnv [("a.go", [1])] [("a.go", [2]), ("extra.go", [3])]) userGen "/ref"
      = some (notEqualErr "a.go" "diff") ∧
    reports (Check (checkEnv [("a.go", [1])] [("a.go", [2]), ("extra.go", [3])])
      userGen "/ref") "unexpected file" = false := by
  refine ⟨⟨by decide, by decide, by decide⟩, by decide, by decide⟩

/-- C6, amended: for a path p of the submitted map that the reference map
lacks: if p is not hashable, Check returns what the two sweeps return with the
entries of p removed from the submitted map; if p is hashable, Check fails with
an error wrapping ErrLlcppgCheck that reports an unexpected or a mismatched
path of the submitted map, and it is "unexpected file: p" when every other
entry of the submitted map passes the sweep. -/
theorem Check_stray_file (env : Env) (l : llcppgGenerator)
    (dir baseDir : String) (generated userGenerated : HashMap) (p : String)
    (hAbs : env.abs dir = .ok baseDir) (hGen : env.hashDir baseDir = .ok generated)
    (hUser : env.hashDir l.dir = .ok userGenerated)
    (hp : p ∈ keys userGenerated) (hnp : p ∉ keys generated) :
    (canHash p = false →
      Check env l dir = checkMaps env l baseDir generated
        (userGenerated.filter (fun e => e.1 != p))) ∧
    (canHash p = true →
      (∃ err, Check env l dir = some err ∧ err.wraps .ErrLlcppgCheck = true ∧
        ((∃ q, Unexpected generated userGenerated q ∧ err = unexpectedErr q) ∨
         (∃ q, Mismatched generated userGenerated q ∧ err = notEqualErr q
            (diffTwoFiles env (filepathJoin l.dir q) (filepathJoin baseDir q))))) ∧
      ((∀ e ∈ userGenerated, e.1 ≠ p → generated.lookup e.1 = some e.2 ∨
          (generated.lookup e.1 = none ∧ canHash e.1 = false)) →
        Check env l dir = some (unexpectedErr p))) := by
  rw [Check_eq_checkMaps env l dir baseDir generated userGenerated hAbs hGen hUser]
  refine ⟨?_, ?_⟩
  · intro hcan
    unfold checkMaps
    rw [checkHash_filter_stray env l baseDir generated userGenerated p hnp hcan,
      checkMissing_filter_stray generated userGenerated p hnp]
  · intro hcan
    refine ⟨?_, ?_⟩
    · cases hc : checkMaps env l baseDir generated userGenerated with
      | none =>
        exact absurd ⟨hp, hnp, hcan⟩
          (((checkMaps_cases env l baseDir generated userGenerated).1.1 hc) p).2.1
      | some err =>
        refine ⟨err, rfl, checkMaps_wraps _ _ _ _ _ _ hc, ?_⟩
        rcases (checkMaps_cases env l baseDir generated userGenerated).2 err hc with
          ⟨q, hq, he⟩ | ⟨q, hq, he⟩ | ⟨q, _, _, hclean⟩
        · exact Or.inr ⟨q, hq, he⟩
        · exact Or.inl ⟨q, hq, he⟩
        · exact absurd ⟨hp, hnp, hcan⟩ (hclean p).2
    · intro hrest
      unfold checkMaps
      rw [checkHash_unexpected_of_rest_clean env l baseDir generated userGenerated p
        hp hnp hcan hrest]

/-- C6, witness: an extra README.md alone changes nothing, an extra extra.go
alone is reported as unexpected. -/
theorem Check_stray_file_witness :
    (Check (checkEnv [("a.go", [1])] [("README.md", [7]), ("a.go", [1])]) userGen "/ref"
      = checkMaps (checkEnv [("a.go", [1])] [("README.md", [7]), ("a.go", [1])]) userGen
          "/ref" [("a.go", [1])] [("a.go", [1])]) ∧
    Check (checkEnv [("a.go", [1])] [("a.go", [1]), ("extra.go", [3])]) userGen "/ref"
      = some (unexpectedErr "extra.go") :=
  ⟨(Check_stray_file (checkEnv [("a.go", [1])] [("README.md", [7]), ("a.go", [1])])
      userGen "/ref" "/ref" [("a.go", [1])] [("README.md", [7]), ("a.go", [1])] "README.md"
      rfl rfl rfl (by decide) (by decide)).1 (by decide),
   ((Check_stray_file (checkEnv [("a.go", [1])] [("a.go", [1]), ("extra.go", [3])])
      userGen "/ref" "/ref" [("a.go", [1])] [("a.go", [1]), ("extra.go", [3])] "extra.go"
      rfl rfl rfl (by decide) (by decide)).2 (by decide)).2 (by decide)⟩


/-! ## Generate: lemmas -/

theorem stat_writeFile_of_ne (fs : FS) (p q : String) (data : List Nat) (h : p ≠ q) :
    stat (writeFile fs q data) p = stat fs p := by
  have hb : (p == q) = false := by simpa using h
  simp only [stat, writeFile, List.lookup_cons, hb]
  exact lookup_filter_bne fs q p h

theorem stat_MkdirAll_of_some (fs : FS) (p q : String) (n : Node) (h : stat fs p = some n) :
    stat (MkdirAll fs q) p = some n := by
  unfold MkdirAll
  by_cases hq : (stat fs q).isSome = true
  · rw [if_pos hq]; exact h
  · have hne : p ≠ q := by
      rintro rfl
      rw [h] at hq
      exact hq rfl
    have hb : (p == q) = false := by simpa using hne
    rw [if_neg hq]
    simp only [stat, List.lookup_cons, hb]
    exact h

/-- The merge of the spec with `allowOverwrite = false` leaves every node that
existed before as it was, whether it succeeds or stops at a collision. -/
theorem copyEntries_false_preserves (dir : String) (entries : List (String × Node)) :
    ∀ (fs : FS) (p : String) (n : Node), stat fs p = some n →
      stat (copyEntries dir false entries fs).2 p = some n := by
  induction entries with
  | nil => intro fs p n h; simpa [copyEntries] using h
  | cons e entries ih =>
    intro fs p n h
    obtain ⟨rel, node⟩ := e
    cases node with
    | dir =>
      simp only [copyEntries]
      exact ih _ p n (stat_MkdirAll_of_some fs p _ n h)
    | file data =>
      simp only [copyEntries, Bool.not_false, Bool.true_and]
      by_cases hq : (stat fs (filepathJoin dir rel)).isSome = true
      · simp only [hq, if_true]
        exact h
      · simp only [hq, Bool.false_eq_true, if_false]
        apply ih
        have hne : p ≠ filepathJoin dir rel := by
          intro hp
          rw [← hp, h] at hq
          exact hq rfl
        rw [stat_writeFile_of_ne fs p _ data hne]
        exact h

/-- The merge of the spec with `allowOverwrite = false` fails when a file of
the source tree already exists at its destination. -/
theorem copyEntries_false_collision (dir : String) (entries : List (String × Node)) :
    ∀ (fs : FS) (rel : String) (data : List Nat), (rel, Node.file data) ∈ entries →
      (stat fs (filepathJoin dir rel)).isSome = true →
      (copyEntries dir false entries fs).1 ≠ none := by
  induction entries with
  | nil => intro fs rel data hm; simp at hm
  | cons e entries ih =>
    intro fs rel data hm hex
    obtain ⟨r, node⟩ := e
    have hpres : ∀ fs2 : FS, (∀ p n, stat fs p = some n → stat fs2 p = some n) →
        (stat fs2 (filepathJoin dir rel)).isSome = true := by
      intro fs2 hp
      obtain ⟨n, hn⟩ := Option.isSome_iff_exists.1 hex
      rw [hp _ n hn]; rfl
    cases node with
    | dir =>
      simp only [copyEntries]
      rcases List.mem_cons.1 hm with heq | hm2
      · simp at heq
      · exact ih _ rel data hm2
          (hpres _ (fun p n h => stat_MkdirAll_of_some fs p _ n h))
    | file d =>
      simp only [copyEntries, Bool.not_false, Bool.true_and]
      by_cases hq : (stat fs (filepathJoin dir r)).isSome = true
      · simp [hq]
      · simp only [hq, Bool.false_eq_true, if_false]
        rcases List.mem_cons.1 hm with heq | hm2
        · simp only [Prod.mk.injEq, Node.file.injEq] at heq
          rw [heq.1] at hex
          exact absurd hex hq
        · apply ih _ rel data hm2
          apply hpres
          intro p n h
          have hne : p ≠ filepathJoin dir r := by
            intro hp
            rw [← hp, h] at hq
            exact hq rfl
          rw [stat_writeFile_of_ne fs p _ d hne]
          exact h

theorem copyConfigFileTo_of_no_config (env : Env) (l : llcppgGenerator) (path : String)
    (fs : FS) (hne : l.dir ≠ path)
    (hcfg : stat fs (filepathJoin l.dir "llcppg.cfg") = none) :
    copyConfigFileTo env l path fs =
      (some (.sys (sprintf "open %s: no such file or directory"
        [filepathJoin l.dir "llcppg.cfg"])), fs) := by
  simp only [copyConfigFileTo, hne, if_false, CopyFile, hcfg]

theorem generateAfterRun_runCalls (l : llcppgGenerator) (path : String) (runErr : Option Err)
    (w2 : World) : (generateAfterRun l path runErr w2).2.runCalls = w2.runCalls := by
  unfold generateAfterRun
  split
  · rfl
  · simp only
    split
    · rfl
    · split <;> rfl

theorem generateAfterRun_nil (l : llcppgGenerator) (path : String) (runErr : Option Err)
    (w2 : World) (h : (generateAfterRun l path runErr w2).1 = none) :
    isExitedUnexpectedly runErr = false := by
  cases runErr with
  | none => rfl
  | some e =>
    cases e with
    | exitError success text =>
      cases success with
      | true => rfl
      | false => simp [generateAfterRun, isExitedUnexpectedly] at h
    | _ => rfl

/-- A result of `cmd.Run()` that is not an ExitError without success leaves
the rest of Generate as it is after the nil error. -/
theorem generateAfterRun_of_no_exit_failure (l : llcppgGenerator) (path : String)
    (runErr : Option Err) (w2 : World) (h : isExitedUnexpectedly runErr = false) :
    generateAfterRun l path runErr w2 = generateAfterRun l path none w2 := by
  cases runErr with
  | none => rfl
  | some e =>
    cases e with
    | exitError success text =>
      cases success with
      | true => rfl
      | false => simp [isExitedUnexpectedly] at h
    | _ => rfl

/-- After the nil error Generate returns nil exactly when the generated
directory exists and the merge succeeds. -/
theorem generateAfterRun_none_eq_none_iff (l : llcppgGenerator) (path : String) (w2 : World) :
    (generateAfterRun l path none w2).1 = none ↔
      (stat w2.fs (filepathJoin path l.packageName)).isSome = true ∧
      (CopyFS path (DirFS w2.fs (filepathJoin path l.packageName)) true w2.fs).1 = none := by
  simp only [generateAfterRun, isExitedUnexpectedly]
  cases hs : stat w2.fs (filepathJoin path l.packageName) with
  | none => simp
  | some n =>
    rcases hc : CopyFS path (DirFS w2.fs (filepathJoin path l.packageName)) true w2.fs
      with ⟨copyErr, fs3⟩
    cases copyErr <;> simp

/-! ## Generate: the claims -/

/-- C1: source and target are both "/work", which holds no llcppg.cfg.
`copyConfigFileTo` returns nil at its early return without looking for the
file, and Generate calls llcppg: with an llcppg that exits with status 1 the
error Generate returns is that of the run, and with an llcppg that writes the
package Generate returns nil. -/
theorem Generate_coincide_skips_config_check :
    stat fsNoConfig (filepathJoin "/work" llcppgConfigFile) = none ∧
    copyConfigFileTo (genEnv runExit1) (New "/work" "cjson" "/tmp/pc") "/work" fsNoConfig
      = (none, fsNoConfig) ∧
    (Generate (genEnv runExit1) (New "/work" "cjson" "/tmp/pc") "/work"
      ⟨fsNoConfig, []⟩).2.runCalls
      = [llcppgCmd (genEnv runExit1) (New "/work" "cjson" "/tmp/pc") "/work"] ∧
    (Generate (genEnv runExit1) (New "/work" "cjson" "/tmp/pc") "/work"
      ⟨fsNoConfig, []⟩).1
      = some (.join .ErrLlcppgGenerate (.exitError false "exit status 1")) ∧
    (Generate (genEnv runWritesCjson) (New "/work" "cjson" "/tmp/pc") "/work"
      ⟨fsNoConfig, []⟩).1 = none := by
  refine ⟨by decide, by decide, by decide, by decide, by decide⟩

/-- The sibling path of the early return: when the resolved target path differs
from the source directory l.dir and l.dir holds no llcppg.cfg, Generate returns
an error wrapping ErrLlcppgGenerate and `Run` has not been called. -/
theorem Generate_fails_without_source_config (env : Env) (l : llcppgGenerator)
    (toDir path : String) (w : World)
    (hAbs : env.abs toDir = .ok path) (hne : l.dir ≠ path)
    (hcfg : stat w.fs (filepathJoin l.dir "llcppg.cfg") = none) :
    (∃ err, (Generate env l toDir w).1 = some err ∧ err.wraps .ErrLlcppgGenerate = true) ∧
    (Generate env l toDir w).2.runCalls = w.runCalls := by
  have hG : Generate env l toDir w =
      (some (.join .ErrLlcppgGenerate (.sys (sprintf "open %s: no such file or directory"
        [filepathJoin l.dir "llcppg.cfg"]))), { w with fs := w.fs }) := by
    simp only [Generate, hAbs, copyConfigFileTo_of_no_config env l path w.fs hne hcfg]
  rw [hG]
  exact ⟨⟨_, rfl, by simp [Err.wraps]⟩, rfl⟩

/-- The sibling path at a source directory "/src" that does not exist, with the
target "/work". -/
theorem Generate_fails_without_source_config_witness :
    (∃ err, (Generate (genEnv runWritesCjson) (New "/src" "cjson" "/tmp/pc") "/work"
        ⟨fsWork, []⟩).1 = some err ∧ err.wraps .ErrLlcppgGenerate = true) ∧
    (Generate (genEnv runWritesCjson) (New "/src" "cjson" "/tmp/pc") "/work"
        ⟨fsWork, []⟩).2.runCalls = [] :=
  Generate_fails_without_source_config (genEnv runWritesCjson) (New "/src" "cjson" "/tmp/pc")
    "/work" "/work" ⟨fsWork, []⟩ rfl (by decide) (by decide)

/-- C2: Generate calls the merge with `allowOverwrite = true`. On a target that
holds its own cjson.go, with llcppg writing cjson/cjson.go, Generate returns
nil and cjson.go has the generated content; the merge with
`allowOverwrite = false` on the same input returns an error. -/
theorem Generate_overwrites_existing_file :
    stat fsWithCjsonGo "/work/cjson.go" = some (.file [10]) ∧
    (Generate (genEnv runWritesCjson) (New "/work" "cjson" "/tmp/pc") "/work"
      ⟨fsWithCjsonGo, []⟩).1 = none ∧
    stat (Generate (genEnv runWritesCjson) (New "/work" "cjson" "/tmp/pc") "/work"
      ⟨fsWithCjsonGo, []⟩).2.fs "/work/cjson.go" = some (.file [20]) ∧
    (CopyFS "/work" (DirFS (runWritesCjson
        (llcppgCmd (genEnv runWritesCjson) (New "/work" "cjson" "/tmp/pc") "/work")
        fsWithCjsonGo).2 "/work/cjson") false
      (runWritesCjson
        (llcppgCmd (genEnv runWritesCjson) (New "/work" "cjson" "/tmp/pc") "/work")
        fsWithCjsonGo).2).1
      = some (.sys "open /work/cjson.go: file exists") := by
  refine ⟨by decide, by decide, by decide, by decide⟩

/-- C9, counterexample: llcppg cannot be started, so `cmd.Run()` returns an
error that is not an `*exec.ExitError` and no process has exited with status
0; the target already holds a package directory cjson, and Generate returns
nil. -/
theorem Generate_ignores_start_failure :
    (runNotFound (llcppgCmd (genEnv runNotFound) (New "/work" "cjson" "/tmp/pc") "/work")
        fsStaleOutput).1
      = some (.sys "exec: llcppg: executable file not found in PATH") ∧
    (Generate (genEnv runNotFound) (New "/work" "cjson" "/tmp/pc") "/work"
      ⟨fsStaleOutput, []⟩).1 = none := by
  refine ⟨by decide, by decide⟩

/-- C9, amended: only an `*exec.ExitError` without success is a failure of the
run. After the config files are in place, (1) when `cmd.Run()` returns such an
error, Generate wraps it with ErrLlcppgGenerate and returns it; (2) for every
other result of `cmd.Run()` (nil, an ExitError with success, or an error that is
not an ExitError, such as a process that could not be started) Generate returns
exactly what it returns for the nil error on the same file system, and that is
nil if and only if the generated directory exists and the merge succeeds;
(3) Generate returns nil only if `cmd.Run()` was called on the llcppg command
and did not return an ExitError without success. -/
theorem Generate_checks_exit_status (env : Env) (l : llcppgGenerator)
    (toDir : String) (w : World) :
    (∀ path fs1, env.abs toDir = .ok path →
      copyConfigFileTo env l path w.fs = (none, fs1) →
      (∀ text, (env.run (llcppgCmd env l path) fs1).1 = some (.exitError false text) →
        (Generate env l toDir w).1
          = some (.join .ErrLlcppgGenerate (.exitError false text))) ∧
      (isExitedUnexpectedly (env.run (llcppgCmd env l path) fs1).1 = false →
        Generate env l toDir w =
          generateAfterRun l path none
            { fs := (env.run (llcppgCmd env l path) fs1).2,
              runCalls := w.runCalls ++ [llcppgCmd env l path] } ∧
        ((Generate env l toDir w).1 = none ↔
          (stat (env.run (llcppgCmd env l path) fs1).2
              (filepathJoin path l.packageName)).isSome = true ∧
          (CopyFS path
              (DirFS (env.run (llcppgCmd env l path) fs1).2 (filepathJoin path l.packageName))
              true (env.run (llcppgCmd env l path) fs1).2).1 = none))) ∧
    ((Generate env l toDir w).1 = none →
      ∃ path fs1, env.abs toDir = .ok path ∧
        copyConfigFileTo env l path w.fs = (none, fs1) ∧
        (Generate env l toDir w).2.runCalls = w.runCalls ++ [llcppgCmd env l path] ∧
        isExitedUnexpectedly (env.run (llcppgCmd env l path) fs1).1 = false) := by
  refine ⟨?_, ?_⟩
  · intro path fs1 hAbs hCopy
    have hG : Generate env l toDir w =
        generateAfterRun l path (env.run (llcppgCmd env l path) fs1).1
          { fs := (env.run (llcppgCmd env l path) fs1).2,
            runCalls := w.runCalls ++ [llcppgCmd env l path] } := by
      simp only [Generate, hAbs, hCopy]
    refine ⟨?_, ?_⟩
    · intro text hRun
      rw [hG, hRun]
      rfl
    · intro hu
      rw [hG, generateAfterRun_of_no_exit_failure _ _ _ _ hu]
      exact ⟨rfl, generateAfterRun_none_eq_none_iff _ _ _⟩
  · intro h
    cases hAbs : env.abs toDir with
    | error err => simp [Generate, hAbs] at h
    | ok path =>
      rcases hCopy : copyConfigFileTo env l path w.fs with ⟨copyErr, fs1⟩
      cases copyErr with
      | some err => simp [Generate, hAbs, hCopy] at h
      | none =>
        have hG : Generate env l toDir w =
            generateAfterRun l path (env.run (llcppgCmd env l path) fs1).1
              { fs := (env.run (llcppgCmd env l path) fs1).2,
                runCalls := w.runCalls ++ [llcppgCmd env l path] } := by
          simp only [Generate, hAbs, hCopy]
        rw [hG] at h ⊢
        exact ⟨path, fs1, rfl, hCopy, generateAfterRun_runCalls _ _ _ _,
          generateAfterRun_nil _ _ _ _ h⟩

/-- C9, witness: an llcppg that exits with status 1; an llcppg that cannot be
started, on a target that already holds a package directory; and an llcppg
that succeeds. -/
theorem Generate_checks_exit_status_witness :
    (Generate (genEnv runExit1) (New "/work" "cjson" "/tmp/pc") "/work" ⟨fsWork, []⟩).1
      = some (.join .ErrLlcppgGenerate (.exitError false "exit status 1")) ∧
    (Generate (genEnv runNotFound) (New "/work" "cjson" "/tmp/pc") "/work"
        ⟨fsStaleOutput, []⟩
      = generateAfterRun (New "/work" "cjson" "/tmp/pc") "/work" none
          { fs := ((genEnv runNotFound).run
              (llcppgCmd (genEnv runNotFound) (New "/work" "cjson" "/tmp/pc") "/work")
              fsStaleOutput).2,
            runCalls := [] ++
              [llcppgCmd (genEnv runNotFound) (New "/work" "cjson" "/tmp/pc") "/work"] }) ∧
    ∃ path fs1, (genEnv runWritesCjson).abs "/work" = .ok path ∧
      copyConfigFileTo (genEnv runWritesCjson) (New "/work" "cjson" "/tmp/pc") path fsWork
        = (none, fs1) ∧
      (Generate (genEnv runWritesCjson) (New "/work" "cjson" "/tmp/pc") "/work"
        ⟨fsWork, []⟩).2.runCalls
        = [] ++ [llcppgCmd (genEnv runWritesCjson) (New "/work" "cjson" "/tmp/pc") path] ∧
      isExitedUnexpectedly ((genEnv runWritesCjson).run
        (llcppgCmd (genEnv runWritesCjson) (New "/work" "cjson" "/tmp/pc") path) fs1).1
        = false :=
  ⟨((Generate_checks_exit_status (genEnv runExit1) (New "/work" "cjson" "/tmp/pc") "/work"
      ⟨fsWork, []⟩).1 "/work" fsWork rfl (by decide)).1 "exit status 1" (by decide),
   (((Generate_checks_exit_status (genEnv runNotFound) (New "/work" "cjson" "/tmp/pc") "/work"
      ⟨fsStaleOutput, []⟩).1 "/work" fsStaleOutput rfl (by decide)).2 (by decide)).1,
   (Generate_checks_exit_status (genEnv runWritesCjson) (New "/work" "cjson" "/tmp/pc") "/work"
      ⟨fsWork, []⟩).2 (by decide)⟩

/-! ## The command `generate`: the claim -/

/-- C10: `defer os.RemoveAll(tempDir)` does not run when the call ends through
`log.Fatal`. When the installer fails, and when Generate fails, the program
exits with status 1 and the scratch directory "/tmp/llpkg-tool1" still exists;
it is removed when the call returns. -/
theorem runLLCppgGenerateWithDir_leaves_tempDir :
    ((runLLCppgGenerateWithDir (genEnv runWritesCjson) (cmdEnv installFails) "/work"
        ⟨fsWork, []⟩).1 = .osExit 1 ∧
      stat (runLLCppgGenerateWithDir (genEnv runWritesCjson) (cmdEnv installFails) "/work"
        ⟨fsWork, []⟩).2.fs "/tmp/llpkg-tool1" = some .dir) ∧
    ((runLLCppgGenerateWithDir (genEnv runExit1) (cmdEnv installOk) "/work"
        ⟨fsWork, []⟩).1 = .osExit 1 ∧
      stat (runLLCppgGenerateWithDir (genEnv runExit1) (cmdEnv installOk) "/work"
        ⟨fsWork, []⟩).2.fs "/tmp/llpkg-tool1" = some .dir) ∧
    ((runLLCppgGenerateWithDir (genEnv runWritesCjson) (cmdEnv installOk) "/work"
        ⟨fsWork, []⟩).1 = .returned ∧
      stat (runLLCppgGenerateWithDir (genEnv runWritesCjson) (cmdEnv installOk) "/work"
        ⟨fsWork, []⟩).2.fs "/tmp/llpkg-tool1" = none) := by
  refine ⟨⟨by decide, by decide⟩, ⟨by decide, by decide⟩, ⟨by decide, by decide⟩⟩


end Llcppg
